import Mathlib

/-!
# Shallow embedding of `src/main/resources/python/tracer.py`

The tracer keeps four module-level pieces of state:

* `_traced`    : dict FunctionIdentity → accumulated duration (seconds)
* `_start`     : dict FunctionIdentity → start time of the in-flight call
* `_functions` : set of FunctionIdentity strings currently watched
* `_last_mtime`: last observed modification timestamp of the config file

We model Python dicts over string keys as association lists in insertion
order (`dget` looks up the first matching key, `dset` updates in place or
appends, `dpop` removes the key), times as rationals (readings of the
monotonic clock `time.perf_counter()`), and the registration state of
`sys.setprofile` as a boolean.  Console output is modelled as an abstract
`Out` value per print site rather than formatted text.
-/

namespace Tracer

/-- A Python dict with string keys, in insertion order. -/
abbrev Dict := List (String × ℚ)

/-- `d.get(k)` / `d[k]` lookup: first entry whose key matches. -/
def dget (d : Dict) (k : String) : Option ℚ :=
  match d with
  | [] => none
  | (k1, v) :: rest => if k1 = k then some v else dget rest k

/-- `d[k] = v`: replace the value at `k` in place, or append a new entry. -/
def dset (d : Dict) (k : String) (v : ℚ) : Dict :=
  match d with
  | [] => [(k, v)]
  | (k1, v1) :: rest => if k1 = k then (k, v) :: rest else (k1, v1) :: dset rest k v

/-- `d.pop(k)` (the removal part): drop the entry for key `k`. -/
def dpop (d : Dict) (k : String) : Dict :=
  match d with
  | [] => []
  | (k1, v1) :: rest => if k1 = k then dpop rest k else (k1, v1) :: dpop rest k

/-- `d.get(k, 0)`: lookup with default `0`. -/
def tgetD (d : Dict) (k : String) : ℚ :=
  (dget d k).getD 0

/-- `k in d`: membership test on a dict. -/
def dmem (d : Dict) (k : String) : Bool :=
  (dget d k).isSome

/-- `d.pop(k)` as Python executes it: returns the stored value together with
the shrunken dict, or fails (`KeyError`) when the key is absent. -/
def dpopE (d : Dict) (k : String) : Option (ℚ × Dict) :=
  match dget d k with
  | some v => some (v, dpop d k)
  | none => none

/-- The parts of a Python frame object read by the hook. -/
structure Frame where
  co_name : String
  co_filename : String
  f_lineno : ℕ
  deriving DecidableEq, Repr

/-- FunctionIdentity: `f"{frame.f_code.co_name} ({frame.f_code.co_filename}:{frame.f_lineno})"`. -/
def funcId (fr : Frame) : String :=
  fr.co_name ++ " (" ++ fr.co_filename ++ ":" ++ toString fr.f_lineno ++ ")"

/-- The tracer's module-level mutable state.  `traced`, `start`, `functions`
and `lastMtime` model `_traced`, `_start`, `_functions` and `_last_mtime`;
`functions` is a set, so only membership matters.  `profiling` records
whether `sys.setprofile(_trace)` is currently registered. -/
structure TracerState where
  traced : Dict
  start : Dict
  functions : List String
  lastMtime : Option ℚ
  profiling : Bool
  deriving DecidableEq, Repr

/-- The hook `_trace(frame, event, arg)`.  `now` is the reading of
`time.perf_counter()` taken while handling this event.  The returned value of
the Python function (the hook itself) carries no information, so we return
only the updated state. -/
def _trace (s : TracerState) (fr : Frame) (event : String) (now : ℚ) : TracerState :=
  if ¬ (event = "call" ∨ event = "return") then s
  else if funcId fr ∉ s.functions then s
  else if event = "call" then
    { s with start := dset s.start (funcId fr) now }
  else if event = "return" ∧ dmem s.start (funcId fr) then
    match dget s.start (funcId fr) with
    | some st => { s with
        start := dpop s.start (funcId fr),
        traced := dset s.traced (funcId fr)
          (tgetD s.traced (funcId fr) + (now - st)) }
    | none => s
  else s

/-- The hook with Python's fallible `dict.pop` made explicit: `none` models a
`KeyError` escaping `_trace` (which would propagate into the host program). -/
def traceE (s : TracerState) (fr : Frame) (event : String) (now : ℚ) :
    Option TracerState :=
  if ¬ (event = "call" ∨ event = "return") then some s
  else if funcId fr ∉ s.functions then some s
  else if event = "call" then
    some { s with start := dset s.start (funcId fr) now }
  else if event = "return" ∧ dmem s.start (funcId fr) then
    match dpopE s.start (funcId fr) with
    | some (st, rest) => some { s with
        start := rest,
        traced := dset s.traced (funcId fr)
          (tgetD s.traced (funcId fr) + (now - st)) }
    | none => none
  else some s

/-- A call/return event as delivered by the runtime: only the events with
`s.profiling` set reach the hook (`sys.setprofile` dispatch). -/
def profEvent (s : TracerState) (fr : Frame) (event : String) (now : ℚ) :
    TracerState :=
  if s.profiling then _trace s fr event now else s

/-- One console print of the tracer, abstracted from its formatted text. -/
inductive Out where
  /-- the startup line of `listen_for_commands` -/
  | ready
  /-- `stop_tracing`: the final summary, one block listing `_traced` -/
  | summary (items : Dict)
  /-- `get_stats`: the intermediate stats block listing `_traced` -/
  | stats (items : Dict)
  /-- `update_traced_functions`: the updated watch list notification -/
  | updated (funcs : List String)
  /-- the unknown-command warning of `listen_for_commands` -/
  | unknown (cmd : String)
  /-- the reload notification of the config watcher -/
  | reloading
  deriving DecidableEq, Repr

/-- Is this print a final summary (the block printed by `stop_tracing`)? -/
def isSummaryOut : Out → Bool
  | .summary _ => true
  | _ => false

/-- `update_traced_functions(funcs)`: `_functions.clear()` then
`_functions.update(funcs)` — a wholesale replacement of the watch set. -/
def update_traced_functions (s : TracerState) (funcs : List String) : TracerState :=
  { s with functions := funcs }

/-- `stop_tracing()`: `sys.setprofile(None)` then print the final summary. -/
def stop_tracing (s : TracerState) : TracerState × Out :=
  ({ s with profiling := false }, Out.summary s.traced)

/-- `get_stats()`: print the intermediate stats; no state is touched. -/
def get_stats (s : TracerState) : TracerState × Out :=
  (s, Out.stats s.traced)

/-- ASCII whitespace, as Python's `str.strip()` sees it on ASCII input. -/
def isSpaceChar (c : Char) : Bool :=
  c = ' ' || c = '\t' || c = '\n' || c = '\x0d' || c = '\x0b' || c = '\x0c'

/-- Python `s.strip()`: drop whitespace from both ends. -/
def pyStrip (s : String) : String :=
  ⟨((s.data.dropWhile isSpaceChar).reverse.dropWhile isSpaceChar).reverse⟩

/-- Helper of `pySplit`: split a character list at every separator,
accumulating the current piece in reverse. -/
def splitGo (sep : Char) (acc : List Char) : List Char → List String
  | [] => [⟨acc.reverse⟩]
  | c :: rest =>
    if c = sep then ⟨acc.reverse⟩ :: splitGo sep [] rest
    else splitGo sep (c :: acc) rest

/-- Python `s.split(sep)` for a one-character separator: `""` yields `[""]`,
and every separator occurrence cuts, so `","` yields `["", ""]`. -/
def pySplit (s : String) (sep : Char) : List String :=
  splitGo sep [] s.data

/-- Python `s.startswith(pat)` on the underlying character lists. -/
def listStartsWith : List Char → List Char → Bool
  | _, [] => true
  | [], _ :: _ => false
  | a :: as, b :: bs => a = b && listStartsWith as bs

/-- Python `s.startswith(pat)`. -/
def pyStartsWith (s pat : String) : Bool :=
  listStartsWith s.data pat.data

/-- Helper of `pyReplace`: scan left to right; on a pattern match emit the
replacement and skip the rest of the matched pattern (`skip` characters),
exactly Python's leftmost non-overlapping `str.replace`. -/
def replaceGo (pat rep : List Char) (skip : ℕ) : List Char → List Char
  | [] => []
  | c :: rest =>
    match skip with
    | n + 1 => replaceGo pat rep n rest
    | 0 =>
      if pat ≠ [] && listStartsWith (c :: rest) pat then
        rep ++ replaceGo pat rep (pat.length - 1) rest
      else c :: replaceGo pat rep 0 rest

/-- Python `s.replace(pat, rep)` for a non-empty pattern: replace every
non-overlapping occurrence, left to right. -/
def pyReplace (s pat rep : String) : String :=
  ⟨replaceGo pat.data rep.data 0 s.data⟩

/-- The entries installed by an `update:` line:
`new_funcs = cmd.replace("update:", "").split(",")` followed by
`[f.strip() for f in new_funcs if f.strip()]`.  Note that Python's
`str.replace` deletes every occurrence of `"update:"`, not only the leading
one. -/
def parseUpdateArg (cmd : String) : List String :=
  let new_funcs := pySplit (pyReplace cmd "update:" "") ','
  (new_funcs.filter (fun f => pyStrip f ≠ "")).map pyStrip

/-- The body of `listen_for_commands` after the readiness line: consume stdin
lines one at a time, dispatch each command, stop the loop on `stop`.  Returns
the final state with the prints in order. -/
def listenLines (s : TracerState) (input : List String) :
    TracerState × List Out :=
  match input with
  | [] => (s, [])
  | line :: rest =>
    if pyStrip line = "stop" then
      let r := stop_tracing s
      (r.1, [r.2])
    else if pyStrip line = "show_stats" then
      let g := get_stats s
      let r := listenLines g.1 rest
      (r.1, g.2 :: r.2)
    else if pyStartsWith (pyStrip line) "update:" then
      let s1 := update_traced_functions s (parseUpdateArg (pyStrip line))
      let r := listenLines s1 rest
      (r.1, Out.updated s1.functions :: r.2)
    else
      let r := listenLines s rest
      (r.1, Out.unknown (pyStrip line) :: r.2)

/-- `listen_for_commands()`: print the readiness line, then run the loop. -/
def listen_for_commands (s : TracerState) (input : List String) :
    TracerState × List Out :=
  let r := listenLines s input
  (r.1, Out.ready :: r.2)

/-- The file system as the tracer observes it: existence, modification
timestamp, and the parsed `functions_to_trace` list of a path.  `content p =
none` models a file whose read or parse raises; `some l` a successful
`yaml.safe_load` whose `data.get("functions_to_trace", [])` yields `l`. -/
structure FS where
  ex : String → Bool
  mtime : String → ℚ
  content : String → Option (List String)

/-- `load_functions_from_config(path)`: missing file warns and returns `[]`;
a read/parse failure is caught, warns and returns `[]`; otherwise the
`functions_to_trace` value (default `[]`) is returned. -/
def load_functions_from_config (fs : FS) (path : String) : List String :=
  if fs.ex path then ((fs.content path).getD []) else []

/-- One iteration of the polling loop `watch` inside
`start_config_watcher(path)`.  Note the reload calls
`load_functions_from_config()` with no argument, so it always reads the
default `"config.yaml"` rather than `path`. -/
def watch_tick (fs : FS) (path : String) (s : TracerState) : TracerState :=
  if fs.ex path then
    match s.lastMtime with
    | none => { s with lastMtime := some (fs.mtime path) }
    | some last =>
      if fs.mtime path ≠ last then
        update_traced_functions { s with lastMtime := some (fs.mtime path) }
          (load_functions_from_config fs "config.yaml")
      else s
  else s

/-- One operation of the tracer over the process lifetime: a runtime
call/return event, one stdin command line, or one config-watcher tick. -/
inductive Op where
  | ev (fr : Frame) (event : String) (now : ℚ)
  | cmdLine (line : String)
  | tick (fs : FS) (path : String)

/-- The clock reading an operation carries, if any. -/
def opTime : Op → Option ℚ
  | .ev _ _ now => some now
  | _ => none

/-- Apply one operation to the tracer state. -/
def applyOp (s : TracerState) : Op → TracerState
  | .ev fr event now => profEvent s fr event now
  | .cmdLine line => (listenLines s [line]).1
  | .tick fs path => watch_tick fs path s

/-- A runtime event: the frame, the event name, and the clock reading taken
while the hook handles it. -/
structure PEvent where
  frame : Frame
  event : String
  now : ℚ
  deriving DecidableEq, Repr

/-- Feed a sequence of runtime events to the hook. -/
def runEvents (s : TracerState) (es : List PEvent) : TracerState :=
  es.foldl (fun t e => _trace t e.frame e.event e.now) s

/-- The subsequence of call/return events of identity `f`, as
(event name, clock reading) pairs. -/
def esProj (f : String) (es : List PEvent) : List (String × ℚ) :=
  (es.filter (fun e =>
    (e.event == "call" || e.event == "return") && funcId e.frame == f)).map
    (fun e => (e.event, e.now))

/-- The event shape of a list of matched call/return pairs of one identity:
for each pair, a call at the first time then a return at the second. -/
def pairsProj : List (ℚ × ℚ) → List (String × ℚ)
  | [] => []
  | p :: rest => ("call", p.1) :: ("return", p.2) :: pairsProj rest

/-- How one call/return event of identity `f` acts on the pair
(accumulated duration of `f`, in-flight start of `f`), read off `_trace`. -/
def keyStep (k : ℚ × Option ℚ) (e : String × ℚ) : ℚ × Option ℚ :=
  if e.1 = "call" then (k.1, some e.2)
  else if e.1 = "return" then
    match k.2 with
    | some st => (k.1 + (e.2 - st), none)
    | none => k
  else k

/-- The entries of an `update:<csv>` line as claim C7 words them: the
comma-separated entries of `<csv>` (the text after the leading `update:`),
each whitespace-trimmed, empties dropped.  Stated from the claim, to be
compared with what the code computes. -/
def claimUpdateEntries (cmd : String) : List String :=
  ((pySplit ⟨cmd.data.drop 7⟩ ',').map pyStrip).filter (fun f => f ≠ "")

/-- The pair (accumulated duration of `f`, in-flight start of `f`) read off a
tracer state. -/
def keyState (s : TracerState) (f : String) : ℚ × Option ℚ :=
  (tgetD s.traced f, dget s.start f)

/-! ## Dictionary lemmas -/

theorem dget_dset_self (d : Dict) (k : String) (v : ℚ) :
    dget (dset d k v) k = some v := by
  induction d with
  | nil => simp [dget, dset]
  | cons p rest ih =>
    obtain ⟨k1, v1⟩ := p
    by_cases h : k1 = k
    · simp [dset, dget, h]
    · simp [dset, dget, h, ih]

theorem dget_dset_ne (d : Dict) (k k1 : String) (v : ℚ) (h : k1 ≠ k) :
    dget (dset d k v) k1 = dget d k1 := by
  induction d with
  | nil => simp [dget, dset, Ne.symm h]
  | cons p rest ih =>
    obtain ⟨k2, v2⟩ := p
    by_cases h2 : k2 = k
    · subst h2
      simp [dset, dget, Ne.symm h]
    · simp [dset, dget, h2, ih]

theorem dget_dpop_self (d : Dict) (k : String) :
    dget (dpop d k) k = none := by
  induction d with
  | nil => simp [dget, dpop]
  | cons p rest ih =>
    obtain ⟨k1, v1⟩ := p
    by_cases h : k1 = k
    · simp [dpop, h, ih]
    · simp [dpop, dget, h, ih]

theorem dget_dpop_ne (d : Dict) (k k1 : String) (h : k1 ≠ k) :
    dget (dpop d k) k1 = dget d k1 := by
  induction d with
  | nil => simp [dpop]
  | cons p rest ih =>
    obtain ⟨k2, v2⟩ := p
    by_cases h2 : k2 = k
    · subst h2
      simp [dpop, dget, Ne.symm h, ih]
    · simp [dpop, dget, h2, ih]

theorem dget_mem (d : Dict) (k : String) (v : ℚ) (h : dget d k = some v) :
    (k, v) ∈ d := by
  induction d with
  | nil => simp [dget] at h
  | cons p rest ih =>
    obtain ⟨k1, v1⟩ := p
    by_cases h1 : k1 = k
    · subst h1
      simp [dget] at h
      simp [h]
    · simp [dget, h1] at h
      exact List.mem_cons_of_mem _ (ih h)

/-! ## Structural lemmas about the hook -/

theorem _trace_functions (s : TracerState) (fr : Frame) (event : String)
    (now : ℚ) : (_trace s fr event now).functions = s.functions := by
  unfold _trace
  repeat' split
  all_goals rfl

theorem trace_keyState_rel (s : TracerState) (fr : Frame) (event : String)
    (now : ℚ) (hf : funcId fr ∈ s.functions)
    (hev : event = "call" ∨ event = "return") :
    keyState (_trace s fr event now) (funcId fr) =
      keyStep (keyState s (funcId fr)) (event, now) := by
  rcases hev with hev | hev <;> subst hev
  · simp only [_trace, keyState, keyStep]
    simp [hf, tgetD, dget_dset_self]
  · rcases hd : dget s.start (funcId fr) with _ | st
    · simp only [_trace, keyState, keyStep]
      simp [hf, dmem, hd]
    · simp only [_trace, keyState, keyStep]
      simp [hf, dmem, hd, tgetD, dget_dset_self, dget_dpop_self]

theorem trace_keyState_other (s : TracerState) (fr : Frame) (event : String)
    (now : ℚ) (f : String)
    (h : funcId fr ≠ f ∨ ¬(event = "call" ∨ event = "return")) :
    keyState (_trace s fr event now) f = keyState s f := by
  by_cases hev : event = "call" ∨ event = "return"
  · have hne : funcId fr ≠ f := by
      rcases h with h | h
      · exact h
      · exact absurd hev h
    by_cases hmem : funcId fr ∈ s.functions
    · rcases hev with hev | hev <;> subst hev
      · simp only [_trace, keyState]
        simp [hmem, tgetD, dget_dset_ne _ _ _ _ (Ne.symm hne)]
      · rcases hd : dget s.start (funcId fr) with _ | st
        · simp only [_trace, keyState]
          simp [hmem, dmem, hd]
        · simp only [_trace, keyState]
          simp [hmem, dmem, hd, tgetD, dget_dset_ne _ _ _ _ (Ne.symm hne),
            dget_dpop_ne _ _ _ (Ne.symm hne)]
    · simp only [_trace]
      simp [hev, hmem]
  · simp only [_trace]
    simp [hev]

theorem runEvents_keyState (f : String) (es : List PEvent) (s : TracerState)
    (hf : f ∈ s.functions) :
    keyState (runEvents s es) f = (esProj f es).foldl keyStep (keyState s f) := by
  induction es generalizing s with
  | nil => rfl
  | cons e rest ih =>
    have hstep : runEvents s (e :: rest) =
        runEvents (_trace s e.frame e.event e.now) rest := rfl
    have hf2 : f ∈ (_trace s e.frame e.event e.now).functions := by
      rw [_trace_functions]; exact hf
    by_cases hp : ((e.event == "call" || e.event == "return")
        && funcId e.frame == f) = true
    · have hevf : (e.event = "call" ∨ e.event = "return") ∧ funcId e.frame = f := by
        simp only [Bool.and_eq_true, Bool.or_eq_true, beq_iff_eq] at hp
        exact hp
      have hproj : esProj f (e :: rest) = (e.event, e.now) :: esProj f rest := by
        simp [esProj, List.filter_cons, hp]
      rw [hstep, ih _ hf2, hproj]
      have hkey : keyState (_trace s e.frame e.event e.now) f =
          keyStep (keyState s f) (e.event, e.now) := by
        rw [← hevf.2] at hf ⊢
        exact trace_keyState_rel s e.frame e.event e.now hf hevf.1
      rw [List.foldl_cons, hkey]
    · have hproj : esProj f (e :: rest) = esProj f rest := by
        simp [esProj, List.filter_cons, hp]
      have hother : funcId e.frame ≠ f ∨ ¬(e.event = "call" ∨ e.event = "return") := by
        simp only [Bool.and_eq_true, Bool.or_eq_true, beq_iff_eq] at hp
        by_cases hev : e.event = "call" ∨ e.event = "return"
        · left
          intro hff
          exact hp ⟨hev, hff⟩
        · right; exact hev
      rw [hstep, ih _ hf2, hproj,
        trace_keyState_other s e.frame e.event e.now f hother]

theorem pairsProj_foldl (ps : List (ℚ × ℚ)) (acc : ℚ) :
    (pairsProj ps).foldl keyStep (acc, none) =
      (acc + (ps.map (fun p => p.2 - p.1)).sum, none) := by
  induction ps generalizing acc with
  | nil => simp [pairsProj]
  | cons p rest ih =>
    have h1 : keyStep (acc, none) ("call", p.1) = (acc, some p.1) := by
      simp [keyStep]
    have h2 : keyStep (acc, some p.1) ("return", p.2) =
        (acc + (p.2 - p.1), none) := by
      simp [keyStep]
    simp only [pairsProj, List.foldl_cons, h1, h2, ih, List.map_cons,
      List.sum_cons]
    rw [add_assoc]

theorem listenLines_traced (input : List String) (s : TracerState) :
    (listenLines s input).1.traced = s.traced := by
  induction input generalizing s with
  | nil => rfl
  | cons line rest ih =>
    by_cases h1 : pyStrip line = "stop"
    · simp [listenLines, h1, stop_tracing]
    · by_cases h2 : pyStrip line = "show_stats"
      · simp [listenLines, h1, h2, get_stats, ih]
      · by_cases h3 : pyStartsWith (pyStrip line) "update:" = true
        · simp [listenLines, h1, h2, h3, update_traced_functions, ih]
        · simp [listenLines, h1, h2, h3, ih]

theorem watch_tick_traced (fs : FS) (path : String) (s : TracerState) :
    (watch_tick fs path s).traced = s.traced := by
  unfold watch_tick update_traced_functions
  repeat' split
  all_goals rfl

theorem trace_traced_cases (s : TracerState) (fr : Frame) (event : String)
    (now : ℚ) :
    (_trace s fr event now).traced = s.traced ∨
    (event = "return" ∧ ∃ st, dget s.start (funcId fr) = some st ∧
      (_trace s fr event now).traced =
        dset s.traced (funcId fr) (tgetD s.traced (funcId fr) + (now - st))) := by
  by_cases hev : ¬(event = "call" ∨ event = "return")
  · left
    unfold _trace
    simp [hev]
  · by_cases hmem : funcId fr ∈ s.functions
    · by_cases hcall : event = "call"
      · left
        unfold _trace
        simp [hev, hcall, hmem]
      · have hret : event = "return" := by
          push_neg at hev
          rcases hev with hev | hev
          · exact absurd hev hcall
          · exact hev
        rcases hd : dget s.start (funcId fr) with _ | st
        · left
          unfold _trace
          simp [hev, hmem, hcall, hret, dmem, hd]
        · right
          refine ⟨hret, st, rfl, ?_⟩
          unfold _trace
          simp [hev, hmem, hcall, hret, dmem, hd]
    · left
      unfold _trace
      simp [hev, hmem]

theorem listenLines_no_summary (input : List String) (s : TracerState)
    (h : ∀ l ∈ input, pyStrip l ≠ "stop") :
    (listenLines s input).2.countP isSummaryOut = 0 := by
  induction input generalizing s with
  | nil => rfl
  | cons line rest ih =>
    have h1 : pyStrip line ≠ "stop" := h line (List.mem_cons_self line rest)
    have hrest : ∀ l ∈ rest, pyStrip l ≠ "stop" :=
      fun l hl => h l (List.mem_cons_of_mem line hl)
    by_cases h2 : pyStrip line = "show_stats"
    · simp [listenLines, h1, h2, get_stats, List.countP_cons, isSummaryOut,
        ih _ hrest]
    · by_cases h3 : pyStartsWith (pyStrip line) "update:" = true
      · simp [listenLines, h1, h2, h3, List.countP_cons, isSummaryOut,
          ih _ hrest]
      · simp [listenLines, h1, h2, h3, List.countP_cons, isSummaryOut,
          ih _ hrest]

theorem listenLines_stop_split (pre post : List String) (s : TracerState)
    (h : ∀ l ∈ pre, pyStrip l ≠ "stop") :
    listenLines s (pre ++ "stop" :: post) =
      ({ (listenLines s pre).1 with profiling := false },
       (listenLines s pre).2 ++
         [Out.summary (listenLines s pre).1.traced]) := by
  induction pre generalizing s with
  | nil =>
    have hstop : pyStrip "stop" = "stop" := by decide
    simp [listenLines, hstop, stop_tracing]
  | cons line rest ih =>
    have h1 : pyStrip line ≠ "stop" := h line (List.mem_cons_self line rest)
    have hrest : ∀ l ∈ rest, pyStrip l ≠ "stop" :=
      fun l hl => h l (List.mem_cons_of_mem line hl)
    by_cases h2 : pyStrip line = "show_stats"
    · simp [listenLines, h1, h2, get_stats, ih _ hrest]
    · by_cases h3 : pyStartsWith (pyStrip line) "update:" = true
      · simp [listenLines, h1, h2, h3, ih _ hrest]
      · simp [listenLines, h1, h2, h3, ih _ hrest]

/-! ## Claims -/

/-- Claim C1: for every sequence of call/return events over a fixed
WatchSet, if the events of identity `f` form `N` matched call/return pairs
(`ps` lists their call and return times), then the accumulated duration of
`f` grows by exactly the sum of the `N` individual elapsed times, return
time minus the matching recorded start time. -/
theorem accumulated_eq_sum_of_matched_pairs (es : List PEvent)
    (ps : List (ℚ × ℚ)) (f : String) (s : TracerState)
    (hf : f ∈ s.functions) (hs : dget s.start f = none)
    (hproj : esProj f es = pairsProj ps) :
    tgetD (runEvents s es).traced f =
      tgetD s.traced f + (ps.map (fun p => p.2 - p.1)).sum := by
  have h := runEvents_keyState f es s hf
  rw [hproj] at h
  unfold keyState at h
  rw [hs] at h
  rw [pairsProj_foldl] at h
  exact congrArg Prod.fst h

/-- Witness for C1: two matched `foo` pairs interleaved with a matched
`bar` pair; `foo` accumulates `(2 - 0) + (7 - 4) = 5`. -/
theorem accumulated_eq_sum_of_matched_pairs_witness :
    tgetD (runEvents ⟨[], [], ["foo (a.py:1)", "bar (a.py:9)"], none, true⟩
      [⟨⟨"foo", "a.py", 1⟩, "call", 0⟩, ⟨⟨"bar", "a.py", 9⟩, "call", 1⟩,
       ⟨⟨"foo", "a.py", 1⟩, "return", 2⟩, ⟨⟨"bar", "a.py", 9⟩, "return", 3⟩,
       ⟨⟨"foo", "a.py", 1⟩, "call", 4⟩,
       ⟨⟨"foo", "a.py", 1⟩, "return", 7⟩]).traced "foo (a.py:1)" =
      tgetD [] "foo (a.py:1)" +
        (([((0 : ℚ), (2 : ℚ)), (4, 7)]).map (fun p => p.2 - p.1)).sum :=
  accumulated_eq_sum_of_matched_pairs _ [(0, 2), (4, 7)] _ _
    (by decide) (by rfl) (by rfl)

/-- Claim C4: a "return" event whose identity has no entry in
InFlightStarts leaves the whole state (both maps included) unchanged and
raises nothing: the fallible rendering of the hook succeeds with the
unchanged state. -/
theorem return_without_start_noop (s : TracerState) (fr : Frame) (now : ℚ)
    (h : dget s.start (funcId fr) = none) :
    _trace s fr "return" now = s ∧ traceE s fr "return" now = some s := by
  by_cases hmem : funcId fr ∈ s.functions
  · constructor
    · unfold _trace
      simp [hmem, dmem, h]
    · unfold traceE
      simp [hmem, dmem, h]
  · constructor
    · unfold _trace
      simp [hmem]
    · unfold traceE
      simp [hmem]

/-- Witness for C4: a return for watched `foo` while only `bar` is in
flight changes nothing. -/
theorem return_without_start_noop_witness :
    _trace ⟨[("x", 1)], [("bar (a.py:9)", 1)], ["foo (a.py:1)"], none, true⟩
        ⟨"foo", "a.py", 1⟩ "return" 5 =
      ⟨[("x", 1)], [("bar (a.py:9)", 1)], ["foo (a.py:1)"], none, true⟩ ∧
    traceE ⟨[("x", 1)], [("bar (a.py:9)", 1)], ["foo (a.py:1)"], none, true⟩
        ⟨"foo", "a.py", 1⟩ "return" 5 =
      some ⟨[("x", 1)], [("bar (a.py:9)", 1)], ["foo (a.py:1)"], none, true⟩ :=
  return_without_start_noop _ _ _ (by decide)

/-- Claim C5: the hook never raises.  With Python's fallible `dict.pop`
made explicit, `traceE` returns normally (`some`) on every state, frame,
event string and clock reading, and agrees with the pure hook. -/
theorem trace_never_raises (s : TracerState) (fr : Frame) (event : String)
    (now : ℚ) : traceE s fr event now = some (_trace s fr event now) := by
  by_cases hev : ¬(event = "call" ∨ event = "return")
  · unfold traceE _trace
    simp [hev]
  · by_cases hmem : funcId fr ∈ s.functions
    · by_cases hcall : event = "call"
      · unfold traceE _trace
        simp [hev, hmem, hcall]
      · have hret : event = "return" := by
          push_neg at hev
          rcases hev with hev | hev
          · exact absurd hev hcall
          · exact hev
        rcases hd : dget s.start (funcId fr) with _ | st
        · unfold traceE _trace
          simp [hev, hmem, hcall, hret, dmem, hd]
        · unfold traceE _trace
          simp [hev, hmem, hcall, hret, dmem, hd, dpopE]
    · unfold traceE _trace
      simp [hev, hmem]

/-- Claim C10: printing never perturbs the stats: `get_stats` returns the
state unchanged (also through the `show_stats` command path), and
`stop_tracing` changes nothing but the hook registration — AccumulatedDurations,
InFlightStarts and WatchSet are untouched by both. -/
theorem stats_and_stop_read_only (s : TracerState) :
    (get_stats s).1 = s ∧
    (listenLines s ["show_stats"]).1 = s ∧
    (stop_tracing s).1.traced = s.traced ∧
    (stop_tracing s).1.start = s.start ∧
    (stop_tracing s).1.functions = s.functions := by
  exact ⟨rfl, by rfl, rfl, rfl, rfl⟩

/-- Claim C8: the first observation of the config file stores the baseline
timestamp and reloads nothing; any later tick that observes the stored
timestamp leaves the state exactly unchanged. -/
theorem watch_tick_unchanged_file (fs : FS) (path : String) (s : TracerState) :
    (s.lastMtime = none → fs.ex path = true →
      watch_tick fs path s = { s with lastMtime := some (fs.mtime path) }) ∧
    (∀ m, s.lastMtime = some m → fs.mtime path = m →
      watch_tick fs path s = s) := by
  constructor
  · intro h1 h2
    unfold watch_tick
    simp [h1, h2]
  · intro m h1 h2
    by_cases hex : fs.ex path = true
    · unfold watch_tick
      simp [hex, h1, h2]
    · unfold watch_tick
      simp [hex]

/-- Witness for C8: a first tick that only stores the baseline `3`, and a
second tick on the unchanged file that is a no-op. -/
theorem watch_tick_unchanged_file_witness :
    watch_tick ⟨fun _ => true, fun _ => 3, fun _ => some ["a"]⟩ "config.yaml"
        ⟨[], [], ["b"], none, true⟩ = ⟨[], [], ["b"], some 3, true⟩ ∧
    watch_tick ⟨fun _ => true, fun _ => 3, fun _ => some ["a"]⟩ "config.yaml"
        ⟨[], [], ["b"], some 3, true⟩ = ⟨[], [], ["b"], some 3, true⟩ :=
  ⟨(watch_tick_unchanged_file _ _ _).1 rfl rfl,
   (watch_tick_unchanged_file _ _ _).2 3 rfl rfl⟩

/-- Claim C2 (amended): after a watched call and a wholesale watch-set
replacement, (a) if the function is still in the new set, its return is
timed with the start recorded before the update; (b) if it is not, the
return adds nothing at all (the in-flight call loses its timing — this is
where the claim as stated fails); (c) calls strictly after the update for
functions outside the new set leave the state untouched. -/
theorem inflight_call_across_update (s : TracerState) (fr : Frame)
    (t0 t1 : ℚ) (newFuncs : List String) (hf : funcId fr ∈ s.functions) :
    (funcId fr ∈ newFuncs →
      tgetD (_trace (update_traced_functions (_trace s fr "call" t0) newFuncs)
          fr "return" t1).traced (funcId fr) =
        tgetD s.traced (funcId fr) + (t1 - t0)) ∧
    (funcId fr ∉ newFuncs →
      _trace (update_traced_functions (_trace s fr "call" t0) newFuncs)
          fr "return" t1 =
        update_traced_functions (_trace s fr "call" t0) newFuncs) ∧
    (∀ fr2 t, funcId fr2 ∉ newFuncs →
      _trace (update_traced_functions (_trace s fr "call" t0) newFuncs)
          fr2 "call" t =
        update_traced_functions (_trace s fr "call" t0) newFuncs) := by
  have hcall : _trace s fr "call" t0 =
      { s with start := dset s.start (funcId fr) t0 } := by
    unfold _trace
    simp [hf]
  refine ⟨?_, ?_, ?_⟩
  · intro hnew
    rw [hcall]
    unfold update_traced_functions _trace
    simp [hnew, dmem, dget_dset_self, tgetD]
  · intro hnot
    rw [hcall]
    unfold update_traced_functions _trace
    simp [hnot]
  · intro fr2 t hnot
    rw [hcall]
    unfold update_traced_functions _trace
    simp [hnot]

/-- Witness for C2 (amended), part (a): `foo` stays watched across the
update, so its return at time 2 adds `2 - 0`. -/
theorem inflight_call_across_update_witness :
    tgetD (_trace (update_traced_functions
        (_trace ⟨[], [], [funcId ⟨"foo", "a.py", 1⟩], none, true⟩
          ⟨"foo", "a.py", 1⟩ "call" 0)
        [funcId ⟨"foo", "a.py", 1⟩, "baz (b.py:2)"])
      ⟨"foo", "a.py", 1⟩ "return" 2).traced (funcId ⟨"foo", "a.py", 1⟩) =
      tgetD ([] : Dict) (funcId ⟨"foo", "a.py", 1⟩) + (2 - 0) :=
  (inflight_call_across_update ⟨[], [], [funcId ⟨"foo", "a.py", 1⟩], none, true⟩
    ⟨"foo", "a.py", 1⟩ 0 2 [funcId ⟨"foo", "a.py", 1⟩, "baz (b.py:2)"]
    (by decide)).1 (by decide)

/-- Counterexample to C2 as stated: `foo` is called while watched, the
update removes it from the WatchSet, and the later return adds nothing —
the call does NOT retain its original timing. -/
theorem inflight_call_across_update_cex :
    tgetD (_trace (update_traced_functions
        (_trace ⟨[], [], [funcId ⟨"foo", "a.py", 1⟩], none, true⟩
          ⟨"foo", "a.py", 1⟩ "call" 0)
        ["bar (b.py:2)"])
      ⟨"foo", "a.py", 1⟩ "return" 2).traced (funcId ⟨"foo", "a.py", 1⟩) ≠
      tgetD ([] : Dict) (funcId ⟨"foo", "a.py", 1⟩) + (2 - 0) := by
  have h1 : tgetD (_trace (update_traced_functions
        (_trace ⟨[], [], [funcId ⟨"foo", "a.py", 1⟩], none, true⟩
          ⟨"foo", "a.py", 1⟩ "call" 0)
        ["bar (b.py:2)"])
      ⟨"foo", "a.py", 1⟩ "return" 2).traced (funcId ⟨"foo", "a.py", 1⟩) = 0 := by
    decide
  rw [h1, show tgetD ([] : Dict) (funcId ⟨"foo", "a.py", 1⟩) = 0 from rfl]
  norm_num

/-- Claim C3: the code at the failing input.  The watcher started on
`"other.yaml"` sees that file's timestamp change, but the reload calls
`load_functions_from_config()` with its default argument: it installs
`["a"]` from `"config.yaml"` although the watched file `"other.yaml"`
lists `["b"]`. -/
theorem watch_tick_reloads_default_path :
    (watch_tick
        ⟨fun _ => true, fun p => if p = "other.yaml" then 5 else 3,
         fun p => if p = "other.yaml" then some ["b"] else some ["a"]⟩
        "other.yaml" ⟨[], [], [], some 1, true⟩).functions = ["a"] ∧
    load_functions_from_config
        ⟨fun _ => true, fun p => if p = "other.yaml" then 5 else 3,
         fun p => if p = "other.yaml" then some ["b"] else some ["a"]⟩
        "other.yaml" = ["b"] := by
  decide

/-- Claim C6: across any single operation of the tracer (runtime event,
stdin command line, or watcher tick) whose clock reading is at least every
recorded start (the monotonic clock never decreases), every accumulated
duration is non-decreasing, and an entry changes only under a "return"
event whose identity has a matching InFlightStarts entry. -/
theorem traced_monotone_return_only (s : TracerState) (op : Op)
    (h : ∀ t, opTime op = some t → ∀ k v, dget s.start k = some v → v ≤ t) :
    (∀ k, tgetD s.traced k ≤ tgetD (applyOp s op).traced k) ∧
    (∀ k, tgetD (applyOp s op).traced k ≠ tgetD s.traced k →
      ∃ fr now st, op = Op.ev fr "return" now ∧ funcId fr = k ∧
        dget s.start k = some st) := by
  cases op with
  | cmdLine line =>
    have ht : (applyOp s (Op.cmdLine line)).traced = s.traced :=
      listenLines_traced [line] s
    exact ⟨fun k => by rw [ht], fun k hk => absurd (by rw [ht]) hk⟩
  | tick fs path =>
    have ht : (applyOp s (Op.tick fs path)).traced = s.traced :=
      watch_tick_traced fs path s
    exact ⟨fun k => by rw [ht], fun k hk => absurd (by rw [ht]) hk⟩
  | ev fr event now =>
    by_cases hprof : s.profiling
    · have happ : applyOp s (Op.ev fr event now) = _trace s fr event now := by
        simp [applyOp, profEvent, hprof]
      rcases trace_traced_cases s fr event now with hsame | ⟨hret, st, hd, hchg⟩
      · rw [happ]
        exact ⟨fun k => by rw [hsame], fun k hk => absurd (by rw [hsame]) hk⟩
      · have hle : st ≤ now := h now rfl (funcId fr) st hd
        rw [happ, hchg]
        constructor
        · intro k
          by_cases hkf : funcId fr = k
          · subst hkf
            unfold tgetD
            rw [dget_dset_self, Option.getD_some]
            exact le_add_of_nonneg_right (sub_nonneg.mpr hle)
          · unfold tgetD
            rw [dget_dset_ne _ _ _ _ (Ne.symm hkf)]
        · intro k hk
          by_cases hkf : funcId fr = k
          · exact ⟨fr, now, st, by rw [hret], hkf, hkf ▸ hd⟩
          · unfold tgetD at hk
            rw [dget_dset_ne _ _ _ _ (Ne.symm hkf)] at hk
            exact absurd rfl hk
    · have happ : applyOp s (Op.ev fr event now) = s := by
        simp [applyOp, profEvent, hprof]
      rw [happ]
      exact ⟨fun k => le_refl _, fun k hk => absurd rfl hk⟩

/-- Witness for C6: a matched return at time 5 with the start recorded at
2; the accumulated duration of `foo` does not decrease. -/
theorem traced_monotone_return_only_witness :
    tgetD (⟨[(funcId ⟨"foo", "a.py", 1⟩, 1)],
        [(funcId ⟨"foo", "a.py", 1⟩, 2)],
        [funcId ⟨"foo", "a.py", 1⟩], none, true⟩ : TracerState).traced
      (funcId ⟨"foo", "a.py", 1⟩) ≤
    tgetD (applyOp ⟨[(funcId ⟨"foo", "a.py", 1⟩, 1)],
        [(funcId ⟨"foo", "a.py", 1⟩, 2)],
        [funcId ⟨"foo", "a.py", 1⟩], none, true⟩
      (Op.ev ⟨"foo", "a.py", 1⟩ "return" 5)).traced
      (funcId ⟨"foo", "a.py", 1⟩) :=
  (traced_monotone_return_only _ _ (by
    intro t ht k v hv
    simp only [opTime, Option.some.injEq] at ht
    subst ht
    by_cases hk : funcId ⟨"foo", "a.py", 1⟩ = k
    · rw [dget, if_pos hk] at hv
      cases hv
      norm_num
    · rw [dget, if_neg hk] at hv
      cases hv)).1 (funcId ⟨"foo", "a.py", 1⟩)

/-- Claim C7 (amended): a stdin line whose stripped form begins with
`update:` replaces the WatchSet wholesale with the entries obtained by
deleting every occurrence of the substring `"update:"` from the line,
splitting the remainder on commas, stripping each entry and dropping the
empties (Python's `str.replace` deletes all occurrences, not only the
leading one); no prior member survives unless it is among the new
entries. -/
theorem update_command_replaces_watchset (line : String) (s : TracerState)
    (h : pyStartsWith (pyStrip line) "update:" = true) :
    (listenLines s [line]).1.functions = parseUpdateArg (pyStrip line) ∧
    (∀ g, g ∈ s.functions → g ∉ parseUpdateArg (pyStrip line) →
      g ∉ (listenLines s [line]).1.functions) := by
  have h1 : pyStrip line ≠ "stop" := by
    intro he
    rw [he] at h
    exact absurd h (by decide)
  have h2 : pyStrip line ≠ "show_stats" := by
    intro he
    rw [he] at h
    exact absurd h (by decide)
  have hfun : (listenLines s [line]).1.functions = parseUpdateArg (pyStrip line) := by
    simp [listenLines, h1, h2, h, update_traced_functions]
  exact ⟨hfun, fun g _ hg => by rw [hfun]; exact hg⟩

/-- Witness for C7 (amended): `update: a, b ,` installs exactly
`["a", "b"]`, dropping the old member. -/
theorem update_command_replaces_watchset_witness :
    (listenLines ⟨[], [], ["old"], none, true⟩ ["update: a, b ,"]).1.functions =
      parseUpdateArg (pyStrip "update: a, b ,") :=
  (update_command_replaces_watchset "update: a, b ," _ (by decide)).1

/-- Counterexample to C7 as stated: on `update:a,update:b` the code strips
the inner `"update:"` too and installs `["a", "b"]`, not the
comma-separated entries `["a", "update:b"]` of the text after the leading
`update:`. -/
theorem update_command_replaces_watchset_cex :
    (listenLines ⟨[], [], [], none, true⟩ ["update:a,update:b"]).1.functions ≠
      claimUpdateEntries (pyStrip "update:a,update:b") := by
  decide

/-- Claim C9: with `stop` on the input, the listener runs exactly the lines
before `stop`, then deregisters the hook and prints the final summary
exactly once; nothing after `stop` is processed, and subsequent runtime
events reach a deregistered hook and change nothing. -/
theorem stop_deregisters_and_summarizes (pre post : List String)
    (s : TracerState) (h : ∀ l ∈ pre, pyStrip l ≠ "stop") :
    listen_for_commands s (pre ++ "stop" :: post) =
      ({ (listenLines s pre).1 with profiling := false },
       Out.ready :: (listenLines s pre).2 ++
         [Out.summary (listenLines s pre).1.traced]) ∧
    (listen_for_commands s (pre ++ "stop" :: post)).2.countP isSummaryOut = 1 ∧
    (∀ fr event now,
      profEvent (listen_for_commands s (pre ++ "stop" :: post)).1 fr event now =
        (listen_for_commands s (pre ++ "stop" :: post)).1) := by
  have hsplit := listenLines_stop_split pre post s h
  have hmain : listen_for_commands s (pre ++ "stop" :: post) =
      ({ (listenLines s pre).1 with profiling := false },
       Out.ready :: (listenLines s pre).2 ++
         [Out.summary (listenLines s pre).1.traced]) := by
    unfold listen_for_commands
    rw [hsplit]
    simp
  refine ⟨hmain, ?_, ?_⟩
  · rw [hmain]
    simp [List.countP_cons, List.countP_append, isSummaryOut,
      listenLines_no_summary pre s h]
  · intro fr event now
    rw [hmain]
    unfold profEvent
    simp

/-- Witness for C9: two non-stop lines, then `stop`, then a line that is
never read; one summary, and a later `return` event is ignored. -/
theorem stop_deregisters_and_summarizes_witness :
    listen_for_commands ⟨[("f", 2)], [], ["f"], none, true⟩
        (["show_stats", "xyz"] ++ "stop" :: ["show_stats"]) =
      ({ (listenLines ⟨[("f", 2)], [], ["f"], none, true⟩
            ["show_stats", "xyz"]).1 with profiling := false },
       Out.ready :: (listenLines ⟨[("f", 2)], [], ["f"], none, true⟩
            ["show_stats", "xyz"]).2 ++
         [Out.summary (listenLines ⟨[("f", 2)], [], ["f"], none, true⟩
            ["show_stats", "xyz"]).1.traced]) :=
  (stop_deregisters_and_summarizes ["show_stats", "xyz"] ["show_stats"]
    ⟨[("f", 2)], [], ["f"], none, true⟩ (by decide)).1

end Tracer
